import Mathlib

/-
Verification of the Keong-MAS post-capture processing pipeline.

The file embeds, over exact arithmetic, the pure decision logic of the
source modules:
  APP/helpers/cleanup_manager.py    (artifact lifecycle coordinator)
  APP/helpers/image_utils.py        (levels adjustment, binary mask)
  APP/helpers/solid_background.py   (content bounds, smart margins, compositing)
  APP/helpers/gpu_fix.py            (provider detection)
  APP/workers/rembg_worker.py       (alpha matting retry engine, provider probe)

Pixel arithmetic that the source performs in 32-bit floats is modelled over
the rationals; for every byte-level equality claimed below, the float
computation performed by the source is exact (the only rounding steps are
division by 255 followed by multiplication by 255, which round-trips every
byte value in IEEE single precision), so the rational model agrees with the
source at the observable byte level.  The pointwise power function used by
the gamma branch is kept abstract as a parameter.
-/

/-! ### Cleanup manager (APP/helpers/cleanup_manager.py) -/

/-- Marker substring that cleanup_adjusted_mask_if_safe requires in a path. -/
def maskAdjustedTag : String := "_mask_adjusted_"

/-- Substring test: does the second list contain the first as a contiguous
run, mirroring the Python expression pat in s. -/
def containsSub (pat : List Char) : List Char → Bool
  | [] => pat.isEmpty
  | c :: rest => pat.isPrefixOf (c :: rest) || containsSub pat rest

/-- String containment, mirroring Python substring membership. -/
def strContains (s pat : String) : Bool := containsSub pat.data s.data

/-- State of the CleanupManager: the set of files registered as in use,
the pending-cleanup set, the set of files present on disk, and the
save_mask configuration value read by cleanup decisions. -/
structure CMState where
  active : Finset String
  pending : Finset String
  disk : Finset String
  saveMask : Bool

/-- CleanupManager.cleanup_adjusted_mask_if_safe: returns the boolean result
together with the successor state.  Mirrors the branch order of the source:
non-adjusted-mask paths are rejected, an absent file counts as already
cleaned, an in-use file is sent to pending cleanup, save_mask keeps the
file, otherwise the file is removed from disk and from pending cleanup. -/
def cleanupAdjustedMaskIfSafe (s : CMState) (p : String) : Bool × CMState :=
  if p = "" || !(strContains p maskAdjustedTag) then (false, s)
  else if p ∉ s.disk then (true, s)
  else if p ∈ s.active then (false, { s with pending := insert p s.pending })
  else if s.saveMask then (false, s)
  else (true, { s with disk := s.disk.erase p, pending := s.pending.erase p })

/-- CleanupManager.register_file_in_use. -/
def registerFileInUse (s : CMState) (p : String) : CMState :=
  { s with active := insert p s.active }

/-- CleanupManager.unregister_file_in_use. -/
def unregisterFileInUse (s : CMState) (p : String) : CMState :=
  { s with active := s.active.erase p }

/-- CleanupManager.is_file_in_use. -/
def isFileInUse (s : CMState) (p : String) : Bool := decide (p ∈ s.active)

/-- One call against the manager, for reasoning about call sequences. -/
inductive CleanupOp where
  | register (p : String)
  | unregister (p : String)
  | cleanup (p : String)

/-- Apply one call to the manager state. -/
def applyOp (s : CMState) : CleanupOp → CMState
  | .register p => registerFileInUse s p
  | .unregister p => unregisterFileInUse s p
  | .cleanup p => (cleanupAdjustedMaskIfSafe s p).2

/-- Run a sequence of calls against the manager state. -/
def runOps (s : CMState) : List CleanupOp → CMState
  | [] => s
  | op :: rest => runOps (applyOp s op) rest

lemma strContains_empty_false : strContains "" maskAdjustedTag = false := by
  decide

lemma applyOp_disk_stable (s : CMState) (p : String) (op : CleanupOp)
    (hd : p ∈ s.disk) (ha : p ∈ s.active) : p ∈ (applyOp s op).disk := by
  cases op with
  | register q => exact hd
  | unregister q => exact hd
  | cleanup q =>
      show p ∈ ((cleanupAdjustedMaskIfSafe s q).2).disk
      unfold cleanupAdjustedMaskIfSafe
      split
      · exact hd
      · split
        · exact hd
        · split
          · exact hd
          · rename_i hqa
            split
            · exact hd
            · have hpq : p ≠ q := fun h => hqa (h ▸ ha)
              simpa [Finset.mem_erase] using ⟨hpq, hd⟩

lemma runOps_deletion_step (s : CMState) (p : String) (ops : List CleanupOp)
    (hd : p ∈ s.disk) (hgone : p ∉ (runOps s ops).disk) :
    ∃ n, p ∈ (runOps s (ops.take n)).disk ∧
      p ∉ (runOps s (ops.take n)).active ∧
      p ∉ (runOps s (ops.take (n + 1))).disk := by
  induction ops generalizing s with
  | nil => exact absurd hd hgone
  | cons op rest ih =>
      by_cases h1 : p ∈ (applyOp s op).disk
      · obtain ⟨n, hn1, hn2, hn3⟩ := ih (applyOp s op) h1 hgone
        exact ⟨n + 1, hn1, hn2, hn3⟩
      · refine ⟨0, hd, ?_, ?_⟩
        · intro ha
          exact h1 (applyOp_disk_stable s p op hd ha)
        · simpa [runOps] using h1

/-- C1: a file registered as in use is never deleted: calling
cleanup_adjusted_mask_if_safe on an in-use adjusted mask that exists on disk
returns false, leaves it on disk and adds it to the pending-cleanup set;
no single call deletes an in-use file; and over every call sequence, the
step that removes a file from disk happens in a state where the file is not
in the in-use set. -/
theorem cleanup_never_deletes_file_in_use (s : CMState) (p : String) :
    (strContains p maskAdjustedTag = true → p ∈ s.disk → p ∈ s.active →
      (cleanupAdjustedMaskIfSafe s p).1 = false ∧
      p ∈ ((cleanupAdjustedMaskIfSafe s p).2).disk ∧
      p ∈ ((cleanupAdjustedMaskIfSafe s p).2).pending) ∧
    (∀ op : CleanupOp, p ∈ s.disk → p ∈ s.active → p ∈ (applyOp s op).disk) ∧
    (∀ ops : List CleanupOp, p ∈ s.disk → p ∉ (runOps s ops).disk →
      ∃ n, p ∈ (runOps s (ops.take n)).disk ∧
        p ∉ (runOps s (ops.take n)).active ∧
        p ∉ (runOps s (ops.take (n + 1))).disk) := by
  refine ⟨?_, fun op => applyOp_disk_stable s p op,
    fun ops => runOps_deletion_step s p ops⟩
  intro htag hd ha
  have hne : ¬(p = "") := by
    intro h
    rw [h, strContains_empty_false] at htag
    exact Bool.false_ne_true htag
  unfold cleanupAdjustedMaskIfSafe
  rw [if_neg, if_neg (by simpa using hd), if_pos ha]
  · exact ⟨rfl, hd, Finset.mem_insert_self p _⟩
  · simp [hne, htag]

/-- Concrete instance backing cleanup_never_deletes_file_in_use. -/
def sampleMaskPath : String := "photo_mask_adjusted_1234.png"

/-- Sample manager state with the sample mask in use and on disk. -/
def sampleCMState : CMState :=
  { active := {sampleMaskPath}, pending := ∅, disk := {sampleMaskPath},
    saveMask := false }

theorem cleanup_never_deletes_file_in_use_witness :
    (cleanupAdjustedMaskIfSafe sampleCMState sampleMaskPath).1 = false ∧
    sampleMaskPath ∈ ((cleanupAdjustedMaskIfSafe sampleCMState sampleMaskPath).2).disk ∧
    sampleMaskPath ∈ ((cleanupAdjustedMaskIfSafe sampleCMState sampleMaskPath).2).pending :=
  (cleanup_never_deletes_file_in_use sampleCMState sampleMaskPath).1
    (by decide) (by decide) (by decide)

/-- Register the same path n times starting from a state. -/
def iterateRegister (s : CMState) (p : String) : ℕ → CMState
  | 0 => s
  | n + 1 => registerFileInUse (iterateRegister s p n) p

/-- C10: in-use registration is set-based: n registrations of the same path
collapse to a single set insertion, and one unregistration then makes
is_file_in_use return false. -/
theorem register_set_based (s : CMState) (p : String) (n : ℕ) (hn : 1 ≤ n) :
    (iterateRegister s p n).active = insert p s.active ∧
    isFileInUse (unregisterFileInUse (iterateRegister s p n) p) p = false := by
  have hact : (iterateRegister s p n).active = insert p s.active := by
    induction n with
    | zero => exact absurd hn (by simp)
    | succ m ih =>
        rcases Nat.eq_zero_or_pos m with hm | hm
        · subst hm
          rfl
        · have := ih hm
          simp [iterateRegister, registerFileInUse, this]
  refine ⟨hact, ?_⟩
  simp [isFileInUse, unregisterFileInUse]

theorem register_set_based_witness :
    (iterateRegister sampleCMState sampleMaskPath 3).active
      = insert sampleMaskPath sampleCMState.active ∧
    isFileInUse
      (unregisterFileInUse (iterateRegister sampleCMState sampleMaskPath 3)
        sampleMaskPath) sampleMaskPath = false :=
  register_set_based sampleCMState sampleMaskPath 3 (by decide)

/-! ### Levels adjustment and binary mask (APP/helpers/image_utils.py) -/

/-- Byte conversion: astype to an unsigned byte truncates the fractional
part; every value fed to it below is already nonnegative. -/
def toByte (q : ℚ) : ℕ := (⌊q⌋).toNat

/-- Gamma exponent computed by _apply_levels_to_mask_impl when the mid
point differs from 128. -/
def gammaOf (mid : ℤ) : ℚ :=
  if mid < 128 then 1 + (128 - (mid : ℚ)) / 128 else 128 / (mid : ℚ)

/-- One pixel of _apply_levels_to_mask_impl: clip to the black and white
points, normalize, optionally apply the gamma power, rescale to the byte
range and clip.  The pointwise power is abstract (rp). -/
def applyLevelsPixel (rp : ℚ → ℚ → ℚ) (black mid white : ℤ) (v : ℚ) : ℚ :=
  let c := min (white : ℚ) (max (black : ℚ) v)
  let n := (c - (black : ℚ)) / max 1 ((white : ℚ) - (black : ℚ))
  let g := if mid ≠ 128 then rp n (gammaOf mid) else n
  min 255 (max 0 (g * 255))

/-- apply_levels_to_mask over a mask given as its list of byte values. -/
def applyLevelsToMask (rp : ℚ → ℚ → ℚ) (black mid white : ℤ)
    (m : List ℕ) : List ℕ :=
  m.map (fun v : ℕ => toByte (applyLevelsPixel rp black mid white (v : ℚ)))

/-- create_binary_mask: pixels strictly above the threshold become 255,
the rest become 0. -/
def createBinaryMask (t : ℤ) (m : List ℕ) : List ℕ :=
  m.map (fun v : ℕ => if (v : ℤ) > t then 255 else 0)

/-- Extreme-settings test of enhance_transparency_with_levels. -/
def usingExtremeSettings (black mid white : ℤ) : Bool :=
  decide (white < 10) || decide (black > 240) || decide (mid < 10)

/-- Threshold chosen by enhance_transparency_with_levels on the extreme
path: the default 127 is overridden only by a very low white point or a
very high black point. -/
def extremeThreshold (black white : ℤ) : ℤ :=
  if white < 10 then max 10 (white * 10)
  else if black > 240 then min 240 black
  else 127

/-- Mask transform performed by enhance_transparency_with_levels: binary
threshold on the extreme path, levels adjustment otherwise. -/
def enhanceAdjustMask (rp : ℚ → ℚ → ℚ) (black mid white : ℤ)
    (m : List ℕ) : List ℕ :=
  if usingExtremeSettings black mid white then
    createBinaryMask (extremeThreshold black white) m
  else applyLevelsToMask rp black mid white m

lemma applyLevelsPixel_id (rp : ℚ → ℚ → ℚ) (v : ℕ) (hv : v ≤ 255) :
    applyLevelsPixel rp 0 128 255 (v : ℚ) = (v : ℚ) := by
  have h0 : (0 : ℚ) ≤ (v : ℚ) := by positivity
  have h255 : (v : ℚ) ≤ 255 := by exact_mod_cast hv
  simp only [applyLevelsPixel]
  norm_num
  exact hv

/-- C2: applying the levels adjustment with the identity parameters
black 0, mid 128, white 255 returns the mask unchanged. -/
theorem applyLevels_identity_params (rp : ℚ → ℚ → ℚ) (m : List ℕ)
    (h : ∀ v ∈ m, v ≤ 255) :
    applyLevelsToMask rp 0 128 255 m = m := by
  induction m with
  | nil => rfl
  | cons v rest ih =>
      have hv : v ≤ 255 := h v (List.mem_cons_self v rest)
      have hrest := ih (fun w hw => h w (List.mem_cons_of_mem v hw))
      unfold applyLevelsToMask at hrest ⊢
      simp only [List.map_cons, hrest, List.cons.injEq, and_true]
      rw [applyLevelsPixel_id rp v hv]
      simp [toByte, Int.floor_natCast]

theorem applyLevels_identity_params_witness :
    applyLevelsToMask (fun x _ => x) 0 128 255 [0, 7, 128, 254, 255]
      = [0, 7, 128, 254, 255] :=
  applyLevels_identity_params (fun x _ => x) [0, 7, 128, 254, 255]
    (by decide)

/-- Reference levels definition following the spec text for C4: clamp the
pixel to the black..white range, normalize with the guarded denominator,
apply the gamma power when the mid point is not 128 (one exponent formula
below 128, another above), rescale to the byte range and clamp. -/
def levelsSpecPixel (rp : ℚ → ℚ → ℚ) (black mid white : ℤ) (v : ℚ) : ℚ :=
  let c := min (white : ℚ) (max (black : ℚ) v)
  let n := (c - (black : ℚ)) / max 1 ((white : ℚ) - (black : ℚ))
  let g :=
    if mid = 128 then n
    else rp n (if mid < 128 then 1 + (128 - (mid : ℚ)) / 128
               else 128 / (mid : ℚ))
  min 255 (max 0 (g * 255))

/-- Reference mask-level transform for C4, mapping the reference pixel
definition over the mask bytes. -/
def levelsSpecMask (rp : ℚ → ℚ → ℚ) (black mid white : ℤ)
    (m : List ℕ) : List ℕ :=
  m.map (fun v : ℕ => toByte (levelsSpecPixel rp black mid white (v : ℚ)))

/-- C4: on every non-extreme parameter triple the pipeline's levels
adjustment agrees, mask for mask, with the reference definition written
from the spec. -/
theorem applyLevels_matches_reference (rp : ℚ → ℚ → ℚ)
    (black mid white : ℤ) (m : List ℕ)
    (h : usingExtremeSettings black mid white = false) :
    enhanceAdjustMask rp black mid white m
      = levelsSpecMask rp black mid white m := by
  have hpix : ∀ v : ℚ, applyLevelsPixel rp black mid white v
      = levelsSpecPixel rp black mid white v := by
    intro v
    unfold applyLevelsPixel levelsSpecPixel gammaOf
    by_cases hm : mid = 128
    · simp [hm]
    · simp [hm]
  unfold enhanceAdjustMask
  rw [h]
  unfold applyLevelsToMask levelsSpecMask
  simp only [Bool.false_eq_true, if_false, hpix]

theorem applyLevels_matches_reference_witness :
    usingExtremeSettings 20 100 235 = false ∧
    enhanceAdjustMask (fun x _ => x) 20 100 235 [0, 60, 255]
      = levelsSpecMask (fun x _ => x) 20 100 235 [0, 60, 255] :=
  ⟨by decide,
    applyLevels_matches_reference (fun x _ => x) 20 100 235 [0, 60, 255]
      (by decide)⟩

/-- Threshold formula exactly as claim C3 words it: the white-point formula
when the white point triggered the extreme path, else the black-point
formula. -/
def claimedExtremeThreshold (black white : ℤ) : ℤ :=
  if white < 10 then max 10 (white * 10) else min 240 black

/-- C3 as stated is false: with the extreme triple black 0, mid 5,
white 255 (extreme only through the mid point), the pipeline thresholds at
the default 127, not at the claimed min of 240 and the black point, so the
two outputs differ on a mask pixel of value 50. -/
theorem extreme_threshold_counterexample :
    usingExtremeSettings 0 5 255 = true ∧
    enhanceAdjustMask (fun x _ => x) 0 5 255 [50]
      ≠ createBinaryMask (claimedExtremeThreshold 0 255) [50] := by
  constructor
  · decide
  · decide

/-- C3 amended: on every extreme parameter triple the pipeline skips the
gamma formula and produces exactly the binary-threshold mask, where the
threshold is the white-point formula when the white point triggered the
path, else the black-point formula when the black point triggered it, else
the default 127 when only the mid point triggered it; in particular the
levels-adjustment path and the dedicated binary path agree byte for
byte. -/
theorem extreme_settings_binary_mask (rp : ℚ → ℚ → ℚ)
    (black mid white : ℤ) (m : List ℕ)
    (h : usingExtremeSettings black mid white = true) :
    enhanceAdjustMask rp black mid white m
      = createBinaryMask
          (if white < 10 then max 10 (white * 10)
           else if black > 240 then min 240 black
           else 127) m := by
  unfold enhanceAdjustMask extremeThreshold
  rw [h]
  simp

theorem extreme_settings_binary_mask_witness :
    usingExtremeSettings 250 128 255 = true ∧
    enhanceAdjustMask (fun x _ => x) 250 128 255 [10, 200, 245]
      = createBinaryMask
          (if (255 : ℤ) < 10 then max 10 (255 * 10)
           else if (250 : ℤ) > 240 then min 240 250
           else 127) [10, 200, 245] :=
  ⟨by decide,
    extreme_settings_binary_mask (fun x _ => x) 250 128 255 [10, 200, 245]
      (by decide)⟩

/-! ### Content bounds, smart margins, compositing
    (APP/helpers/solid_background.py) -/

/-- Alpha threshold used by get_content_bounds. -/
def contentThreshold : ℕ := 5

/-- Maximum alpha over one column of the image. -/
def colMaxAlpha (h : ℕ) (alpha : ℕ → ℕ → ℕ) (c : ℕ) : ℕ :=
  ((List.range h).map (fun r => alpha r c)).foldr max 0

/-- Maximum alpha over one row of the image. -/
def rowMaxAlpha (w : ℕ) (alpha : ℕ → ℕ → ℕ) (r : ℕ) : ℕ :=
  ((List.range w).map (fun c => alpha r c)).foldr max 0

/-- get_content_bounds: from each side independently, scan for the first
row or column whose alpha maximum exceeds the threshold; a failed scan from
the left or top stops at the dimension, a failed scan from the right or
bottom stops at minus one; when the scans cross, return the full frame. -/
def getContentBounds (w h : ℕ) (alpha : ℕ → ℕ → ℕ) : ℤ × ℤ × ℤ × ℤ :=
  let pc := fun c => decide (contentThreshold < colMaxAlpha h alpha c)
  let pr := fun r => decide (contentThreshold < rowMaxAlpha w alpha r)
  let left : ℤ := (((List.range w).find? pc).getD w : ℕ)
  let right : ℤ :=
    match (List.range w).reverse.find? pc with
    | some c => (c : ℤ)
    | none => -1
  let top : ℤ := (((List.range h).find? pr).getD h : ℕ)
  let bottom : ℤ :=
    match (List.range h).reverse.find? pr with
    | some r => (r : ℤ)
    | none => -1
  if left ≥ right ∨ top ≥ bottom then (0, 0, (w : ℤ), (h : ℤ))
  else (left, top, right + 1, bottom + 1)

/-- C9: when no column maximum and no row maximum of the alpha channel
exceeds the threshold 5, content-bounds detection returns the full-frame
bounds instead of failing. -/
theorem contentBounds_empty_full_frame (w h : ℕ) (alpha : ℕ → ℕ → ℕ)
    (hc : ∀ c, c < w → colMaxAlpha h alpha c ≤ 5)
    (hr : ∀ r, r < h → rowMaxAlpha w alpha r ≤ 5) :
    getContentBounds w h alpha = (0, 0, (w : ℤ), (h : ℤ)) := by
  have hfind : (List.range w).find?
      (fun c => decide (contentThreshold < colMaxAlpha h alpha c)) = none := by
    rw [List.find?_eq_none]
    intro c hcmem
    have := hc c (List.mem_range.mp hcmem)
    simpa [contentThreshold] using Nat.not_lt.mpr this
  have hfindr : (List.range w).reverse.find?
      (fun c => decide (contentThreshold < colMaxAlpha h alpha c)) = none := by
    rw [List.find?_eq_none]
    intro c hcmem
    have := hc c (List.mem_range.mp (List.mem_reverse.mp hcmem))
    simpa [contentThreshold] using Nat.not_lt.mpr this
  simp only [getContentBounds]
  rw [hfind, hfindr]
  have hcond : ((((none : Option ℕ).getD w : ℕ) : ℤ) ≥ -1) := by
    simp
    omega
  rw [if_pos (Or.inl hcond)]

theorem contentBounds_empty_full_frame_witness :
    getContentBounds 8 8 (fun _ _ => 0) = (0, 0, 8, 8) :=
  contentBounds_empty_full_frame 8 8 (fun _ _ => 0)
    (by decide) (by decide)

/-- calculate_smart_margins: clamp the requested margin on each side to the
space available outside the content bounds on that side. -/
def calculateSmartMargins (bounds : ℤ × ℤ × ℤ × ℤ) (size : ℤ × ℤ)
    (req : ℤ) : ℤ × ℤ × ℤ × ℤ :=
  (min req bounds.1, min req bounds.2.1,
    min req (size.1 - bounds.2.2.1), min req (size.2 - bounds.2.2.2))

/-- C7: smart margins are componentwise monotone in the requested margin,
each component never exceeds the available space on its side, and each
component is exactly the minimum of the request and that space. -/
theorem smartMargins_monotone_clamped (bounds : ℤ × ℤ × ℤ × ℤ)
    (size : ℤ × ℤ) (m1 m2 : ℤ) (h0 : 0 ≤ m1) (h12 : m1 < m2) :
    ((calculateSmartMargins bounds size m1).1
        ≤ (calculateSmartMargins bounds size m2).1 ∧
      (calculateSmartMargins bounds size m1).2.1
        ≤ (calculateSmartMargins bounds size m2).2.1 ∧
      (calculateSmartMargins bounds size m1).2.2.1
        ≤ (calculateSmartMargins bounds size m2).2.2.1 ∧
      (calculateSmartMargins bounds size m1).2.2.2
        ≤ (calculateSmartMargins bounds size m2).2.2.2) ∧
    (∀ m : ℤ,
      (calculateSmartMargins bounds size m).1 ≤ bounds.1 ∧
      (calculateSmartMargins bounds size m).2.1 ≤ bounds.2.1 ∧
      (calculateSmartMargins bounds size m).2.2.1
        ≤ size.1 - bounds.2.2.1 ∧
      (calculateSmartMargins bounds size m).2.2.2
        ≤ size.2 - bounds.2.2.2) ∧
    (∀ m : ℤ,
      (calculateSmartMargins bounds size m).1 = min m bounds.1 ∧
      (calculateSmartMargins bounds size m).2.1 = min m bounds.2.1 ∧
      (calculateSmartMargins bounds size m).2.2.1
        = min m (size.1 - bounds.2.2.1) ∧
      (calculateSmartMargins bounds size m).2.2.2
        = min m (size.2 - bounds.2.2.2)) := by
  have hle : m1 ≤ m2 := le_of_lt h12
  refine ⟨⟨?_, ?_, ?_, ?_⟩, fun m => ⟨?_, ?_, ?_, ?_⟩,
    fun m => ⟨rfl, rfl, rfl, rfl⟩⟩ <;>
    simp [calculateSmartMargins] <;> omega

theorem smartMargins_monotone_clamped_witness :
    (0 : ℤ) ≤ 10 ∧ (10 : ℤ) < 30 ∧
    ((calculateSmartMargins (12, 7, 90, 80) (100, 100) 10).1
        ≤ (calculateSmartMargins (12, 7, 90, 80) (100, 100) 30).1 ∧
      (calculateSmartMargins (12, 7, 90, 80) (100, 100) 10).2.1
        ≤ (calculateSmartMargins (12, 7, 90, 80) (100, 100) 30).2.1 ∧
      (calculateSmartMargins (12, 7, 90, 80) (100, 100) 10).2.2.1
        ≤ (calculateSmartMargins (12, 7, 90, 80) (100, 100) 30).2.2.1 ∧
      (calculateSmartMargins (12, 7, 90, 80) (100, 100) 10).2.2.2
        ≤ (calculateSmartMargins (12, 7, 90, 80) (100, 100) 30).2.2.2) :=
  ⟨by decide, by decide,
    (smartMargins_monotone_clamped (12, 7, 90, 80) (100, 100) 10 30
      (by decide) (by decide)).1⟩

/-- One RGBA pixel as byte values. -/
structure RGBA where
  r : ℕ
  g : ℕ
  b : ℕ
  a : ℕ
deriving DecidableEq

/-- Edge-refinement constants of
composite_layers_like_graphics_software. -/
def edgeBlackPoint : ℤ := 20

/-- Edge-refinement mid point constant. -/
def edgeMidPoint : ℤ := 128

/-- Edge-refinement white point constant. -/
def edgeWhitePoint : ℤ := 235

/-- Alpha refinement performed before the blend: clip the normalized alpha
to the edge-control window, renormalize with the guarded denominator, and
apply the inverse gamma power when the mid point is not 128 (it is 128, so
that branch is inert; it is still embedded, with the power abstract). -/
def refineAlpha (rp : ℚ → ℚ → ℚ) (a : ℚ) : ℚ :=
  let c := min ((edgeWhitePoint : ℚ) / 255) (max ((edgeBlackPoint : ℚ) / 255) a)
  let n := (c - (edgeBlackPoint : ℚ) / 255)
    / max (1 / 1000) (((edgeWhitePoint : ℚ) - (edgeBlackPoint : ℚ)) / 255)
  if edgeMidPoint ≠ 128 then
    rp n (1 / (if edgeMidPoint < 128 then 1 + (128 - (edgeMidPoint : ℚ)) / 128
               else 128 / (edgeMidPoint : ℚ)))
  else n

/-- One channel of the blend: out equals fg times refined alpha plus bg
times one minus refined alpha, converted back to a byte. -/
def compositeChannel (ra : ℚ) (f b : ℕ) : ℕ :=
  toByte ((((f : ℚ) / 255) * ra + ((b : ℚ) / 255) * (1 - ra)) * 255)

/-- composite_layers_like_graphics_software on one pixel pair. -/
def compositePixel (rp : ℚ → ℚ → ℚ) (fg bg : RGBA) : RGBA :=
  let ra := refineAlpha rp ((fg.a : ℚ) / 255)
  let outA := ra + ((bg.a : ℚ) / 255) * (1 - ra)
  { r := compositeChannel ra fg.r bg.r,
    g := compositeChannel ra fg.g bg.g,
    b := compositeChannel ra fg.b bg.b,
    a := toByte (outA * 255) }

/-- composite_layers_like_graphics_software over same-size images given as
pixel lists. -/
def compositeLayers (rp : ℚ → ℚ → ℚ) (fg bg : List RGBA) : List RGBA :=
  List.zipWith (compositePixel rp) fg bg

lemma refineAlpha_fullAlpha (rp : ℚ → ℚ → ℚ) :
    refineAlpha rp ((255 : ℚ) / 255) = 1 := by
  unfold refineAlpha edgeBlackPoint edgeMidPoint edgeWhitePoint
  norm_num

lemma compositeChannel_fullAlpha (f b : ℕ) : compositeChannel 1 f b = f := by
  unfold compositeChannel
  rw [show ((1 : ℚ) - 1) = 0 by ring]
  rw [mul_zero, add_zero, mul_one,
    div_mul_cancel₀ _ (by norm_num : (255 : ℚ) ≠ 0)]
  simp [toByte, Int.floor_natCast]

lemma compositePixel_fullAlpha (rp : ℚ → ℚ → ℚ) (fg bg : RGBA)
    (ha : fg.a = 255) :
    ((compositePixel rp fg bg).r, (compositePixel rp fg bg).g,
      (compositePixel rp fg bg).b) = (fg.r, fg.g, fg.b) := by
  unfold compositePixel
  rw [ha]
  push_cast
  rw [refineAlpha_fullAlpha rp]
  simp only [compositeChannel_fullAlpha]

/-- C8: compositing a fully opaque foreground over any same-size background
reproduces the RGB channels of the foreground byte for byte. -/
theorem composite_opaque_preserves_rgb (rp : ℚ → ℚ → ℚ)
    (fg bg : List RGBA) (hlen : fg.length = bg.length)
    (hop : ∀ p ∈ fg, p.a = 255) :
    (compositeLayers rp fg bg).map (fun p => (p.r, p.g, p.b))
      = fg.map (fun p => (p.r, p.g, p.b)) := by
  induction fg generalizing bg with
  | nil => simp [compositeLayers]
  | cons x xs ih =>
      cases bg with
      | nil => exact absurd hlen (by simp)
      | cons y ys =>
          have hx : x.a = 255 := hop x (List.mem_cons_self x xs)
          have hxs := ih ys (by simpa using hlen)
            (fun p hp => hop p (List.mem_cons_of_mem x hp))
          simp only [compositeLayers, List.zipWith_cons_cons, List.map_cons]
          rw [List.cons.injEq]
          constructor
          · exact compositePixel_fullAlpha rp x y hx
          · exact hxs

theorem composite_opaque_preserves_rgb_witness :
    (compositeLayers (fun x _ => x)
        [⟨10, 20, 30, 255⟩, ⟨200, 0, 5, 255⟩]
        [⟨1, 2, 3, 255⟩, ⟨4, 5, 6, 255⟩]).map (fun p => (p.r, p.g, p.b))
      = [((10 : ℕ), (20 : ℕ), (30 : ℕ)), (200, 0, 5)] :=
  composite_opaque_preserves_rgb (fun x _ => x)
    [⟨10, 20, 30, 255⟩, ⟨200, 0, 5, 255⟩]
    [⟨1, 2, 3, 255⟩, ⟨4, 5, 6, 255⟩] (by decide) (by decide)

/-! ### Provider detection and probe gating
    (APP/helpers/gpu_fix.py, APP/workers/rembg_worker.py) -/

/-- Name of the CUDA execution provider. -/
def cudaName : String := "CUDAExecutionProvider"

/-- Name of the DirectML execution provider. -/
def dmlName : String := "DmlExecutionProvider"

/-- Name of the ROCm execution provider. -/
def rocmName : String := "ROCMExecutionProvider"

/-- Name of the CPU execution provider. -/
def cpuName : String := "CPUExecutionProvider"

/-- detect_best_provider: walk the fixed priority order over the reported
available providers, falling back to CPU. -/
def detectBestProvider (available : List String) : String :=
  if cudaName ∈ available then cudaName
  else if dmlName ∈ available then dmlName
  else if rocmName ∈ available then rocmName
  else cpuName

/-- get_provider_list: empty for CPU, else the singleton best provider. -/
def getProviderList (available : List String) : List String :=
  if detectBestProvider available = cpuName then []
  else [detectBestProvider available]

/-- Provider-selection step of the worker: the chosen candidate together
with whether a verification probe session is constructed (the worker builds
its test session only when the provider list is nonempty). -/
def selectProviderTrace (available : List String) : String × Bool :=
  (detectBestProvider available, !(getProviderList available).isEmpty)

/-- C6: provider selection is a deterministic function of the reported
available providers, and with no GPU provider reported it selects CPU
without constructing any verification probe session. -/
theorem provider_selection_deterministic :
    (∀ a b : List String, a = b →
      selectProviderTrace a = selectProviderTrace b) ∧
    (∀ a : List String, cudaName ∉ a → dmlName ∉ a → rocmName ∉ a →
      selectProviderTrace a = (cpuName, false)) := by
  constructor
  · intro a b hab
    rw [hab]
  · intro a hc hd hr
    have hbest : detectBestProvider a = cpuName := by
      unfold detectBestProvider
      rw [if_neg hc, if_neg hd, if_neg hr]
    unfold selectProviderTrace getProviderList
    rw [hbest]
    simp

theorem provider_selection_deterministic_witness :
    selectProviderTrace [(("AzureExecutionProvider" : String))]
      = (cpuName, false) :=
  provider_selection_deterministic.2 [(("AzureExecutionProvider" : String))]
    (by decide) (by decide) (by decide)

/-! ### Alpha matting retry engine (APP/workers/rembg_worker.py,
    APP/helpers/image_utils.py) -/

/-- Parameter set for one alpha matting attempt. -/
structure AlphaMattingParams where
  foregroundThreshold : ℤ
  backgroundThreshold : ℤ
  erodeSize : ℤ
  discardThreshold : ℚ
  shift : ℚ
deriving DecidableEq

/-- recommend_alpha_matting_params: bucket the image into low, medium or
high contrast from the contrast measure (max minus min over 255) and the
grayscale standard deviation, each bucket with its own thresholds, erode
size and shift. -/
def recommendAlphaMattingParams (contrast stdDev : ℚ) : AlphaMattingParams :=
  if contrast < 2 / 5 ∨ stdDev < 30 then
    ⟨220, 20, 15, 1 / 10000, 1 / 50⟩
  else if contrast < 7 / 10 then
    ⟨240, 10, 10, 1 / 10000, 1 / 100⟩
  else
    ⟨250, 5, 5, 1 / 10000, 1 / 1000⟩

/-- The five progressively relaxed parameter sets tried by the worker, in
source order, built from the recommended baseline. -/
def buildMattingAttempts (p : AlphaMattingParams) : List AlphaMattingParams :=
  [ p,
    { p with discardThreshold := 1 / 10000, shift := 1 / 50 },
    { p with discardThreshold := 1 / 10000, shift := 1 / 20 },
    { p with discardThreshold := 1 / 100000, shift := 1 / 100 },
    { p with discardThreshold := 1 / 1000000, shift := 1 / 10 } ]

/-- Retry loop: walk the attempts in order with the attempt index, return
the first success together with the number of failures logged before it. -/
def runMattingLoop {α : Type} (attemptResult : ℕ → Option α) :
    List AlphaMattingParams → ℕ → ℕ → Option (ℕ × α) × ℕ
  | [], _, fails => (none, fails)
  | _ :: rest, i, fails =>
      match attemptResult i with
      | some img => (some (i, img), fails)
      | none => runMattingLoop attemptResult rest (i + 1) (fails + 1)

/-- Full engine: try the five parameter sets; on total failure fall back to
the no-matting removal, still producing an output.  The boolean records
whether alpha matting succeeded. -/
def runMattingEngine {α : Type} (attemptResult : ℕ → Option α)
    (noMatting : α) (p : AlphaMattingParams) : α × ℕ × Bool :=
  match runMattingLoop attemptResult (buildMattingAttempts p) 0 0 with
  | (some (_, img), fails) => (img, fails, true)
  | (none, fails) => (noMatting, fails, false)

/-- C5: the engine tries exactly the five claimed parameter sets in fixed
order (the recommended baseline, then shift 0.02, shift 0.05, discard
threshold 1e-5 with shift 0.01, discard threshold 1e-6 with shift 0.1);
the first successful attempt's result is returned with one logged failure
per earlier attempt, in particular four logged failures when only the
fifth succeeds; and when all five fail the engine returns the no-matting
removal instead of failing the job. -/
theorem matting_engine_five_attempts {α : Type} (contrast stdDev : ℚ)
    (p : AlphaMattingParams) (attemptResult : ℕ → Option α) (noMatting : α)
    (hp : p = recommendAlphaMattingParams contrast stdDev) :
    (buildMattingAttempts p
      = [ p, { p with shift := 1 / 50 }, { p with shift := 1 / 20 },
          { p with discardThreshold := 1 / 100000, shift := 1 / 100 },
          { p with discardThreshold := 1 / 1000000, shift := 1 / 10 } ]) ∧
    (∀ k img, k < 5 → (∀ j, j < k → attemptResult j = none) →
      attemptResult k = some img →
      runMattingEngine attemptResult noMatting p = (img, k, true)) ∧
    ((∀ j, j < 5 → attemptResult j = none) →
      runMattingEngine attemptResult noMatting p
        = (noMatting, 5, false)) := by
  have hdt : p.discardThreshold = 1 / 10000 := by
    rw [hp]
    unfold recommendAlphaMattingParams
    split
    · rfl
    · split
      · rfl
      · rfl
  refine ⟨?_, ?_, ?_⟩
  · unfold buildMattingAttempts
    rw [← hdt]
  · intro k img hk hbefore hsucc
    unfold runMattingEngine buildMattingAttempts
    interval_cases k
    · rw [show (0 : ℕ) = 0 from rfl] at hsucc
      simp [runMattingLoop, hsucc]
    · simp [runMattingLoop, hbefore 0 (by omega), hsucc]
    · simp [runMattingLoop, hbefore 0 (by omega), hbefore 1 (by omega),
        hsucc]
    · simp [runMattingLoop, hbefore 0 (by omega), hbefore 1 (by omega),
        hbefore 2 (by omega), hsucc]
    · simp [runMattingLoop, hbefore 0 (by omega), hbefore 1 (by omega),
        hbefore 2 (by omega), hbefore 3 (by omega), hsucc]
  · intro hall
    unfold runMattingEngine buildMattingAttempts
    simp [runMattingLoop, hall 0 (by omega), hall 1 (by omega),
      hall 2 (by omega), hall 3 (by omega), hall 4 (by omega)]

/-- Attempt oracle for the witness: only the fifth attempt succeeds. -/
def fifthOnly : ℕ → Option ℕ := fun i => if i = 4 then some 7 else none

theorem matting_engine_five_attempts_witness :
    runMattingEngine fifthOnly 0 (recommendAlphaMattingParams 1 50)
      = (7, 4, true) :=
  (matting_engine_five_attempts 1 50 (recommendAlphaMattingParams 1 50)
    fifthOnly 0 rfl).2.1 4 7 (by decide)
    (by intro j hj; interval_cases j <;> rfl) rfl
